import Mathlib

/-!
Verification of the Knowledge repository's citation pipeline.

This file gives a shallow embedding, in Lean, of the pure content of
`src/processor/citation_processor.py` (section extraction, chunk-to-section
matching, citation formatting), of `_sanitize_name` from
`src/processor/kb_repository.py`, and of the batch bookkeeping of
`process_directory` in `src/ingestor/bulk_ingestor.py`, followed by theorems
settling the frozen claims about that code.

Modelling conventions:
- Python dicts whose key sets vary are embedded as structures with `Option`
  fields; a missing key is `none`.  An unguarded dict index that can raise
  `KeyError` is embedded in the `Option` monad (`none` = exception raised).
- File contents are strings; `readlines` is embedded as `readlines` below
  (split after every newline character, keeping the newline, exactly like
  Python's `readlines`).
- `hashlib.md5(...).hexdigest()` is an opaque parameter `hash : String → String`
  of every extractor: no claim depends on the digest's value, only on which
  sections carry one, so every theorem is proved for an arbitrary hash
  function.
- Character classes (`\s`, `\w`, `isalnum`, `lower`) are modelled at ASCII
  granularity, which is exact for ASCII input.
-/

namespace Knowledge

/-! ### Character and string utilities -/

/-- Characters matched by Python's regex class `\s` (ASCII range). -/
def isPySpace (c : Char) : Bool :=
  c = ' ' || c = '\t' || c = '\n' || c = '\r' || c = '\x0b' || c = '\x0c'

/-- Characters matched by Python's regex class `\w` (ASCII range). -/
def isWordChar (c : Char) : Bool :=
  c.isAlphanum || c = '_'

/-- Python's `str.strip()`: drop leading and trailing whitespace. -/
def pyStrip (s : String) : String :=
  String.mk (((s.data.dropWhile isPySpace).reverse.dropWhile isPySpace).reverse)

/-- Python's `''.join(...)` on a list of strings. -/
def pyJoin (ls : List String) : String :=
  String.mk (ls.map String.data).flatten

/-- Python's `', '.join(...)` on a list of strings. -/
def pyCommaJoin : List String → String
  | [] => ""
  | [p] => p
  | p :: q :: rest => p ++ ", " ++ pyCommaJoin (q :: rest)

/-- Does `pre` start `l`?  (List-level `startswith`.) -/
def startsWith : List Char → List Char → Bool
  | [], _ => true
  | _ :: _, [] => false
  | a :: as, b :: bs => a = b && startsWith as bs

/-- Does `needle` occur contiguously inside `hay`?  (List-level substring test.) -/
def occursIn (needle : List Char) : List Char → Bool
  | [] => startsWith needle []
  | b :: bs => startsWith needle (b :: bs) || occursIn needle bs

/-- Python's `chunk in content` substring test on strings. -/
def pyIn (needle hay : String) : Bool :=
  occursIn needle.data hay.data

/-- Split a character list into lines, keeping each terminating newline:
the list-level core of Python's `readlines`. -/
def breakLines : List Char → List (List Char)
  | [] => []
  | c :: rest =>
    if c = '\n' then ['\n'] :: breakLines rest
    else
      match breakLines rest with
      | [] => [[c]]
      | l :: ls => (c :: l) :: ls

/-- Python's `f.readlines()` applied to a file whose whole content is `s`. -/
def readlines (s : String) : List String :=
  (breakLines s.data).map String.mk

/-! ### The Section record

One entry of a citation's `sections` list: a Python dict whose key set varies
with the producing path, embedded with `Option` fields (`none` = key absent).
The keys `type` and `name` are present on every section every producer
builds, so they are plain fields. -/

structure Sec where
  type : String
  name : String
  level : Option Nat := none
  start_line : Option Nat := none
  end_line : Option Nat := none
  page_number : Option Nat := none
  lines : Option (List String) := none
  content_hash : Option String := none
  citation_key : Option String := none
deriving Repr, DecidableEq

/-! ### Code section extraction (`_process_code_sections`) -/

/-- Match the literal `kw` after the leading whitespace of `line`,
returning the remaining characters (the `^\s*kw` part of the patterns). -/
def afterKeyword (kw : String) (line : String) : Option (List Char) :=
  let rec go : List Char → List Char → Option (List Char)
    | [], rest => some rest
    | _, [] => none
    | k :: ks, c :: cs => if c = k then go ks cs else none
  go kw.data (line.data.dropWhile isPySpace)

/-- Python's `re.match(r'^\s*KW\s+', line)` as a Bool: keyword followed by at
least one whitespace character. -/
def declStart (kw : String) (line : String) : Bool :=
  match afterKeyword kw line with
  | some (c :: _) => isPySpace c
  | _ => false

/-- Python's `re.search(r'^\s*KW\s+(\w+)', line)`: the captured name, when the
keyword is followed by whitespace and then at least one word character. -/
def declName (kw : String) (line : String) : Option String :=
  match afterKeyword kw line with
  | some (c :: rest) =>
      if isPySpace c then
        let w := ((c :: rest).dropWhile isPySpace).takeWhile isWordChar
        if w = [] then none else some (String.mk w)
      else none
  | _ => none

/-- First index `j` in `l` (0-based) whose element satisfies `p`, if any. -/
def findIdxFrom (p : String → Bool) : List String → Option Nat
  | [] => none
  | x :: xs => if p x then some 0 else (findIdxFrom p xs).map (· + 1)

/-- The `end_line` scan of `_process_code_sections`: the first line index
after `i` whose line satisfies `p`, or `len(lines)` if none does. -/
def findEndFrom (p : String → Bool) (lines : List String) (i : Nat) : Nat :=
  match findIdxFrom p (lines.drop (i + 1)) with
  | some k => i + 1 + k
  | none => lines.length

/-- Python's `''.join(code_lines[i:j])`. -/
def slice (lines : List String) (i j : Nat) : String :=
  pyJoin ((lines.drop i).take (j - i))

/-- The class section built at 0-based line `i` with captured name `cname`. -/
def mkClassSec (hash : String → String) (stem : String) (all : List String)
    (i : Nat) (cname : String) : Sec :=
  let e := findEndFrom (declStart "class") all i
  { type := "class", name := cname, start_line := some (i + 1), end_line := some e,
    content_hash := some (hash (slice all i e)),
    citation_key := some (stem ++ ":class:" ++ cname) }

/-- The function section built at 0-based line `i` with captured name `fname`. -/
def mkFunctionSec (hash : String → String) (stem : String) (all : List String)
    (i : Nat) (fname : String) : Sec :=
  let e := findEndFrom (fun l => declStart "def" l || declStart "class" l) all i
  { type := "function", name := fname, start_line := some (i + 1), end_line := some e,
    content_hash := some (hash (slice all i e)),
    citation_key := some (stem ++ ":function:" ++ fname) }

/-- One pass of the declaration scan: `get_name` is the capture of the scanned
pattern, `mk` builds the section at a matched 0-based index. -/
def declScan (mk : Nat → String → Sec) (get_name : String → Option String) :
    List String → Nat → List Sec
  | [], _ => []
  | line :: rest, i =>
      match get_name line with
      | some nm => mk i nm :: declScan mk get_name rest (i + 1)
      | none => declScan mk get_name rest (i + 1)

/-- `_process_code_sections`: class sections (in line order), then function
sections (in line order), then a whole-file fallback when nothing matched. -/
def process_code_sections (hash : String → String) (stem : String)
    (code_lines : List String) : List Sec :=
  let classes := declScan (mkClassSec hash stem code_lines) (declName "class") code_lines 0
  let funs := declScan (mkFunctionSec hash stem code_lines) (declName "def") code_lines 0
  let secs := classes ++ funs
  if secs = [] then
    [{ type := "file", name := stem, start_line := some 1,
       end_line := some code_lines.length,
       content_hash := some (hash (pyJoin code_lines)),
       citation_key := some stem }]
  else secs

/-! ### Markdown section extraction (`_process_markdown_sections`) -/

/-- Remove one trailing newline, reporting whether one was there (the regex
anchor `$` matches just before a final newline). -/
def dropTrailingNl (cs : List Char) : Bool × List Char :=
  if cs.getLast? = some '\n' then (true, cs.dropLast) else (false, cs)

/-- The optional suffix group `(?:\s+#{1,6})?$` of the heading pattern: remove
a trailing run of one to six `#` plus the nonempty whitespace just before it;
a run longer than six, or one not preceded by whitespace, is left in place. -/
def stripTrailingHashes (body : List Char) : List Char :=
  let rb := body.reverse
  let hashes := rb.takeWhile (fun c => c = '#')
  let rest := rb.dropWhile (fun c => c = '#')
  let ws := rest.takeWhile isPySpace
  if 1 ≤ hashes.length ∧ hashes.length ≤ 6 ∧ ws ≠ [] then
    (rest.dropWhile isPySpace).reverse
  else body

/-- Python's `re.match(r'^(#{1,6})\s+(.*?)(?:\s+#{1,6})?$', line)`: the heading
level (length of group 1) and group 2 (before the `.strip()` at the use site).
A line that is one to six `#` directly followed by its newline also matches
(the `\s+` consumes the newline and group 2 is empty). -/
def headerMatch (line : String) : Option (Nat × String) :=
  let p := dropTrailingNl line.data
  let core := p.2
  let k := (core.takeWhile (fun c => c = '#')).length
  let rest := core.drop k
  if 1 ≤ k ∧ k ≤ 6 then
    match rest with
    | [] => if p.1 then some (k, "") else none
    | c :: _ =>
        if isPySpace c then
          some (k, String.mk (stripTrailingHashes (rest.dropWhile isPySpace)))
        else none
  else none

/-- The in-progress section dict of the markdown loop: always carries `type
"header"`, `level`, `name`, `start_line` and `lines`; `citation_key` is set at
creation for heading-started sections but absent on the initial synthetic
level-0 section. -/
structure CurSec where
  level : Nat
  name : String
  start_line : Nat
  lines : List String
  citation_key : Option String
deriving Repr, DecidableEq

/-- The citation key written for markdown sections: `stem:level:name`. -/
def mdCiteKey (stem : String) (level : Nat) (name : String) : String :=
  stem ++ ":" ++ toString level ++ ":" ++ name

/-- Close the in-progress section at `end_line := endLine`, computing its
content hash; `ck` is the `citation_key` the saving site leaves on the dict. -/
def saveCur (hash : String → String) (cur : CurSec) (endLine : Nat)
    (ck : Option String) : Sec :=
  { type := "header", name := cur.name, level := some cur.level,
    start_line := some cur.start_line, end_line := some endLine,
    lines := some cur.lines,
    content_hash := some (hash (pyJoin cur.lines)),
    citation_key := ck }

/-- The main loop of `_process_markdown_sections`: `i` is the number of lines
already consumed.  On a heading line the previous section is saved (when it
accumulated lines) with its citation key recomputed; at end of input the final
section is saved (when it accumulated lines) keeping whatever citation key the
dict already had — the initial synthetic section has none. -/
def mdLoop (hash : String → String) (stem : String) :
    List String → Nat → CurSec → List Sec → List Sec
  | [], i, cur, acc =>
      if cur.lines = [] then acc
      else acc ++ [saveCur hash cur i cur.citation_key]
  | line :: rest, i, cur, acc =>
      match headerMatch line with
      | some lv =>
          let name := pyStrip lv.2
          let acc' :=
            if cur.lines = [] then acc
            else acc ++ [saveCur hash cur i (some (mdCiteKey stem cur.level cur.name))]
          mdLoop hash stem rest (i + 1)
            { level := lv.1, name := name, start_line := i + 1, lines := [line],
              citation_key := some (mdCiteKey stem lv.1 name) } acc'
      | none =>
          mdLoop hash stem rest (i + 1) { cur with lines := cur.lines ++ [line] } acc

/-- `_process_markdown_sections` on the already-split lines of the file. -/
def process_markdown_sections (hash : String → String) (stem : String)
    (md_lines : List String) : List Sec :=
  let sections := mdLoop hash stem md_lines 0
    { level := 0, name := stem, start_line := 1, lines := [], citation_key := none } []
  if sections = [] then
    [{ type := "file", name := stem, start_line := some 1,
       end_line := some md_lines.length,
       content_hash := some (hash (pyJoin md_lines)),
       citation_key := some stem }]
  else sections

/-! ### PDF and generic section extraction -/

/-- `_process_pdf_sections`: one page section per entry of `metadata["pages"]`
when that key is present, else a single document section.  Page entries carry
no `content_hash`. -/
def process_pdf_sections {α : Type} (stem : String) (pages : Option (List α)) : List Sec :=
  match pages with
  | some ps =>
      (List.range ps.length).map fun i =>
        { type := "page", name := "Page " ++ toString (i + 1),
          page_number := some (i + 1),
          citation_key := some (stem ++ ":page:" ++ toString (i + 1)) }
  | none => [{ type := "document", name := stem, citation_key := some stem }]

/-- `_process_generic_sections`: `content` is `some` when the file could be
read as text (then a hash is stored) and `none` when reading raised (the
`except` branch, which stores no hash). -/
def process_generic_sections (hash : String → String) (stem : String)
    (content : Option String) : List Sec :=
  match content with
  | some c =>
      [{ type := "file", name := stem, content_hash := some (hash c),
         citation_key := some stem }]
  | none => [{ type := "file", name := stem, citation_key := some stem }]

/-! ### Chunk-to-section matching (`_find_chunk_sections`) -/

/-- `_is_content_subset`: true only when the section dict still carries a
`lines` key and the chunk occurs in the joined lines; sections without a
`lines` key (code, pdf, generic and fallback sections) never match. -/
def is_content_subset (chunk : String) (s : Sec) : Bool :=
  match s.lines with
  | some ls => pyIn chunk (pyJoin ls)
  | none => false

/-- The guard of the matching loop: only sections carrying a `content_hash`
are examined, and they match by `_is_content_subset`. -/
def section_matches (chunk : String) (s : Sec) : Bool :=
  s.content_hash.isSome && is_content_subset chunk s

/-- The `matching_section` dict built for a matched section: `type`, `name`
and `citation_key` are indexed unconditionally (a missing `citation_key`
raises, hence `Option`), line numbers are copied only when present, and
the `level` key is not copied. -/
def projectSec (s : Sec) : Option Sec :=
  match s.citation_key with
  | some ck =>
      some { type := s.type, name := s.name, start_line := s.start_line,
             end_line := s.end_line, citation_key := some ck }
  | none => none

/-- Project every section of a list, propagating a raised `KeyError`. -/
def projectAll : List Sec → Option (List Sec)
  | [] => some []
  | s :: rest =>
      match projectSec s, projectAll rest with
      | some m, some tl => some (m :: tl)
      | _, _ => none

/-- The matching loop of `_find_chunk_sections`. -/
def findMatching (chunk : String) : List Sec → Option (List Sec)
  | [] => some []
  | s :: rest =>
      if section_matches chunk s then
        match projectSec s, findMatching chunk rest with
        | some m, some tl => some (m :: tl)
        | _, _ => none
      else findMatching chunk rest

/-- The generic fallback reference built from the document's first section. -/
def docFallback (s : Sec) : Sec :=
  { type := "document", name := s.name,
    citation_key := some (s.citation_key.getD "unknown") }

/-- `_find_chunk_sections`: matched sections projected in order; when none
matched and the section list is nonempty, the document fallback. -/
def find_chunk_sections (chunk : String) (sections : List Sec) : Option (List Sec) :=
  match findMatching chunk sections with
  | none => none
  | some matching =>
      if matching = [] then
        match sections with
        | [] => some []
        | s0 :: _ => some [docFallback s0]
      else some matching

/-! ### Citation formatting (`_format_citation`) -/

/-- A persisted citation record.  `process_document` always writes `doc_id`,
`repository` and `sections`; the fields `_format_citation` reads through
`.get(...)` are `Option` so the theorems can quantify over their absence. -/
structure Citation where
  doc_id : String
  title : Option String := none
  author : Option String := none
  version : Option String := none
  citation_format : Option String := none
  repository : String := ""
  sections : List Sec := []
deriving Repr, DecidableEq

/-- The parts `_format_code_citation` appends after the title for the first
section: the class/function label, then the line range when both ends exist. -/
def codeExtraParts : List Sec → List String
  | [] => []
  | s :: _ =>
      (if s.type = "class" then ["Class " ++ s.name]
       else if s.type = "function" then ["Function " ++ s.name]
       else []) ++
      (match s.start_line, s.end_line with
       | some a, some b => ["Lines " ++ toString a ++ "-" ++ toString b]
       | _, _ => [])

/-- `_format_code_citation`. -/
def format_code_citation (c : Citation) (sections : List Sec) : String :=
  pyCommaJoin ([c.title.getD "Unknown"] ++ codeExtraParts sections ++
    ["Version " ++ c.version.getD "1.0"])

/-- The heading part `_format_markdown_citation` appends for the first
section: `#`-prefix of the stored level (defaulting to 1) plus the name. -/
def mdExtraParts : List Sec → List String
  | [] => []
  | s :: _ =>
      if s.type = "header" then
        [String.mk (List.replicate (s.level.getD 1) '#') ++ " " ++ s.name]
      else []

/-- The author part appended when `citation.get("author", "Unknown")` differs
from `"Unknown"`. -/
def authorParts (c : Citation) : List String :=
  if c.author.getD "Unknown" ≠ "Unknown" then ["by " ++ c.author.getD "Unknown"]
  else []

/-- `_format_markdown_citation`. -/
def format_markdown_citation (c : Citation) (sections : List Sec) : String :=
  pyCommaJoin ([c.title.getD "Unknown"] ++ mdExtraParts sections ++ authorParts c ++
    ["Version " ++ c.version.getD "1.0"])

/-- The page part `_format_pdf_citation` appends for the first section. -/
def pdfExtraParts : List Sec → List String
  | [] => []
  | s :: _ =>
      if s.type = "page" ∧ s.page_number.isSome then
        ["Page " ++ toString (s.page_number.getD 0)]
      else []

/-- `_format_pdf_citation` (note: no version part). -/
def format_pdf_citation (c : Citation) (sections : List Sec) : String :=
  pyCommaJoin ([c.title.getD "Unknown"] ++ authorParts c ++ pdfExtraParts sections)

/-- `_format_generic_citation`. -/
def format_generic_citation (c : Citation) (_sections : List Sec) : String :=
  pyCommaJoin ([c.title.getD "Unknown"] ++ authorParts c ++
    ["Version " ++ c.version.getD "1.0"])

/-- `_format_citation`: the empty-section default, then the dispatch on
`citation_format`. -/
def format_citation (c : Citation) (sections : List Sec) : String :=
  if sections = [] then
    c.title.getD "Unknown Document" ++ " (" ++ c.version.getD "1.0" ++ ")"
  else if c.citation_format = some "code" then format_code_citation c sections
  else if c.citation_format = some "markdown" then format_markdown_citation c sections
  else if c.citation_format = some "pdf" then format_pdf_citation c sections
  else format_generic_citation c sections

/-! ### Chunk citations (`generate_chunk_citations`) -/

/-- One chunk citation record. -/
structure ChunkCitation where
  chunk_id : String
  doc_id : String
  title : String
  author : String
  version : String
  sections : List Sec
  citation_text : String
  repository_link : String
deriving Repr, DecidableEq

/-- The citation store: what `{doc_id}_citation.json` files exist on disk
(`none` = no such file). -/
abbrev CitationStore : Type := String → Option Citation

/-- The chunk citation built for the chunk at index `i`, in the `Option` monad
because `_find_chunk_sections` can raise. -/
def mkChunkCitation (citation : Citation) (doc_id : String) (i : Nat)
    (chunk : String) : Option ChunkCitation :=
  match find_chunk_sections chunk citation.sections with
  | none => none
  | some sections =>
      some { chunk_id := doc_id ++ "_chunk_" ++ toString i,
             doc_id := doc_id,
             title := citation.title.getD "Unknown",
             author := citation.author.getD "Unknown",
             version := citation.version.getD "1.0",
             sections := sections,
             citation_text := format_citation citation sections,
             repository_link := citation.repository ++ "/processed/" ++ doc_id ++ ".md" }

/-- The per-chunk loop, raising as soon as one chunk raises. -/
def chunkLoop (citation : Citation) (doc_id : String) :
    Nat → List String → Option (List ChunkCitation)
  | _, [] => some []
  | i, chunk :: rest =>
      match mkChunkCitation citation doc_id i chunk, chunkLoop citation doc_id (i + 1) rest with
      | some cc, some tl => some (cc :: tl)
      | _, _ => none

/-- `generate_chunk_citations`: `some []` when no citation file exists (the
early `return []`), otherwise one citation per chunk (`none` = exception). -/
def generate_chunk_citations (store : CitationStore) (chunks : List String)
    (doc_id : String) : Option (List ChunkCitation) :=
  match store doc_id with
  | none => some []
  | some citation => chunkLoop citation doc_id 0 chunks

/-! ### Name sanitization (`_sanitize_name` in `kb_repository.py`) -/

/-- Characters `_sanitize_name` keeps: alphanumerics and `._- ` (ASCII view of
Python's `isalnum`). -/
def sanitizeKeep (c : Char) : Bool :=
  c.isAlphanum || c = '.' || c = '_' || c = '-' || c = ' '

/-- The per-character replacement of the generator expression. -/
def sanitizeChar (c : Char) : Char :=
  if sanitizeKeep c then c else '_'

/-- The `.replace(" ", "_")` step (single-character pattern, hence per-char). -/
def spaceToUnderscore (c : Char) : Char :=
  if c = ' ' then '_' else c

/-- `_sanitize_name`: keep-or-underscore each character, spaces to
underscores, then lowercase (Char.toLower is exactly ASCII lowercasing). -/
def sanitize_name (s : String) : String :=
  String.mk (((s.data.map sanitizeChar).map spaceToUnderscore).map Char.toLower)

/-! ### Batch ingestion bookkeeping (`process_directory` in `bulk_ingestor.py`) -/

/-- The directory-level index JSON that `process_directory` writes, plus the
name it is written under and the final commit message. -/
structure DirIndex where
  filename : String
  document_count : Nat
  documents : List String
  commit_message : String
deriving Repr, DecidableEq

/-- `process_directory` given the walked file list: `process_file` returns
`none` for a skipped or failing file (hidden file, caught exception) and the
doc id otherwise.  Returns the processed ids and the written index file. -/
def process_directory (process_file : String → Option String) (dir_name : String)
    (all_files : List String) : List String × DirIndex :=
  let processed := all_files.filterMap process_file
  (processed,
   { filename := "document_index.json",
     document_count := processed.length,
     documents := processed,
     commit_message := "Processed " ++ toString processed.length ++
       " documents from " ++ dir_name })

/-! ## Helper lemmas -/

theorem startsWith_append_self (xs ys : List Char) : startsWith xs (xs ++ ys) = true := by
  induction xs with
  | nil => rfl
  | cons a as ih => simp [startsWith, ih]

theorem occursIn_of_startsWith (n h : List Char) (hp : startsWith n h = true) :
    occursIn n h = true := by
  cases h with
  | nil => simpa [occursIn] using hp
  | cons b bs => simp [occursIn, hp]

theorem data_append (t r : String) : (t ++ r).data = t.data ++ r.data := rfl

theorem pyIn_self_append (t r : String) : pyIn t (t ++ r) = true := by
  unfold pyIn
  rw [data_append]
  exact occursIn_of_startsWith _ _ (startsWith_append_self _ _)

theorem pyCommaJoin_head (t : String) (rest : List String) :
    ∃ r, pyCommaJoin (t :: rest) = t ++ r := by
  cases rest with
  | nil => exact ⟨"", by simp [pyCommaJoin]⟩
  | cons q qs =>
      exact ⟨", " ++ pyCommaJoin (q :: qs), by simp [pyCommaJoin, String.append_assoc]⟩

theorem pyIn_pyCommaJoin_head (t : String) (l : List String) :
    pyIn t (pyCommaJoin (t :: l)) = true := by
  obtain ⟨r, hr⟩ := pyCommaJoin_head t l
  rw [hr]
  exact pyIn_self_append _ _

/-! ## Claims -/

/-- C9 (amended): `process_directory` on an empty directory returns an empty
doc id list and writes a directory-level index file — named
`document_index.json`, not `index.json` — whose `document_count` field is 0,
then issues the final batch commit. -/
theorem C9_empty_directory_index (process_file : String → Option String) (dir_name : String) :
    process_directory process_file dir_name [] =
      ([], { filename := "document_index.json", document_count := 0, documents := [],
             commit_message := "Processed 0 documents from " ++ dir_name }) := by
  have h : ("Processed " ++ toString (0 : Nat) ++ " documents from " : String) =
      "Processed 0 documents from " := by decide
  unfold process_directory
  simp only [List.filterMap_nil, List.length_nil]
  rw [h]

/-- C9 counterexample: the claim names the written index file `index.json`,
but on an empty directory (and any other) the file written is
`document_index.json`. -/
theorem C9_counterexample :
    (process_directory (fun _ => none) "docs" []).1 = [] ∧
    (process_directory (fun _ => none) "docs" []).2.document_count = 0 ∧
    (process_directory (fun _ => none) "docs" []).2.filename = "document_index.json" ∧
    (process_directory (fun _ => none) "docs" []).2.filename ≠ "index.json" := by
  refine ⟨rfl, rfl, rfl, ?_⟩
  decide

/-- C10: when no citation file has been persisted for `doc_id`,
`generate_chunk_citations` returns the empty list for every chunk list,
raising nothing and producing no partial citations. -/
theorem C10_missing_citation_empty (store : CitationStore) (chunks : List String)
    (doc_id : String) (h : store doc_id = none) :
    generate_chunk_citations store chunks doc_id = some [] := by
  unfold generate_chunk_citations
  rw [h]

/-- C10 witness: concrete instantiation on a store with no citation files and
a nonempty chunk list. -/
theorem C10_missing_citation_empty_witness :
    ((fun _ => none : CitationStore) "doc1" = none) ∧
    generate_chunk_citations (fun _ => none) ["some chunk text"] "doc1" = some [] :=
  ⟨rfl, C10_missing_citation_empty (fun _ => none) ["some chunk text"] "doc1" rfl⟩

/-- The per-character action of `sanitize_name` (keep-or-underscore, then
space-to-underscore, then lowercase). -/
def sanStep (c : Char) : Char :=
  Char.toLower (spaceToUnderscore (sanitizeChar c))

theorem sanitize_name_eq_map (s : String) :
    sanitize_name s = String.mk (s.data.map sanStep) := by
  unfold sanitize_name
  rw [List.map_map, List.map_map]
  rfl

theorem toNat_ofNat_of_lt (m : Nat) (h : m < 0xd800) : (Char.ofNat m).toNat = m := by
  unfold Char.ofNat
  rw [dif_pos (Or.inl h)]
  rfl

theorem toLower_eq_of_upper (c : Char) (h : 65 ≤ c.toNat ∧ c.toNat ≤ 90) :
    Char.toLower c = Char.ofNat (c.toNat + 32) := by
  show (if c.toNat ≥ 65 ∧ c.toNat ≤ 90 then Char.ofNat (c.toNat + 32) else c) = _
  rw [if_pos h]

theorem toLower_eq_of_not_upper (c : Char) (h : ¬(65 ≤ c.toNat ∧ c.toNat ≤ 90)) :
    Char.toLower c = c := by
  show (if c.toNat ≥ 65 ∧ c.toNat ≤ 90 then Char.ofNat (c.toNat + 32) else c) = c
  rw [if_neg h]

theorem sanStep_fixed_of_good (d : Char) (hk : sanitizeKeep d = true) (hs : d ≠ ' ')
    (hl : Char.toLower d = d) : sanStep d = d := by
  unfold sanStep sanitizeChar spaceToUnderscore
  rw [if_pos hk, if_neg hs, hl]

theorem isLower_keep (d : Char) (h : 97 ≤ d.toNat ∧ d.toNat ≤ 122) :
    sanitizeKeep d = true := by
  have hl : d.isLower = true := by
    unfold Char.isLower
    simp only [Bool.and_eq_true, decide_eq_true_eq]
    exact ⟨h.1, h.2⟩
  simp [sanitizeKeep, Char.isAlphanum, Char.isAlpha, hl]

theorem sanStep_idem (c : Char) : sanStep (sanStep c) = sanStep c := by
  by_cases hk : sanitizeKeep c = true
  · by_cases hsp : c = ' '
    · subst hsp
      have h1 : sanStep ' ' = '_' := by decide
      rw [h1]
      decide
    · have h1 : spaceToUnderscore (sanitizeChar c) = c := by
        unfold sanitizeChar spaceToUnderscore
        rw [if_pos hk, if_neg hsp]
      have h2 : sanStep c = Char.toLower c := by
        unfold sanStep
        rw [h1]
      by_cases hu : 65 ≤ c.toNat ∧ c.toNat ≤ 90
      · have h3 : Char.toLower c = Char.ofNat (c.toNat + 32) := toLower_eq_of_upper c hu
        have h4 : (Char.ofNat (c.toNat + 32)).toNat = c.toNat + 32 :=
          toNat_ofNat_of_lt _ (by omega)
        rw [h2, h3]
        apply sanStep_fixed_of_good
        · exact isLower_keep _ (by omega)
        · intro hEq
          have h5 : (' ').toNat = 32 := rfl
          rw [hEq, h5] at h4
          omega
        · exact toLower_eq_of_not_upper _ (by omega)
      · have h3 : Char.toLower c = c := toLower_eq_of_not_upper c hu
        rw [h2, h3]
        exact sanStep_fixed_of_good c hk hsp h3
  · have h1 : sanStep c = '_' := by
      unfold sanStep sanitizeChar
      rw [if_neg hk]
      decide
    rw [h1]
    decide

theorem sanitize_list_idem (l : List Char) :
    List.map sanStep (List.map sanStep l) = List.map sanStep l := by
  induction l with
  | nil => rfl
  | cons c t ih => rw [List.map_cons, List.map_cons, sanStep_idem c, ih]

/-- C4 (amended): name sanitization is deterministic and idempotent —
`sanitize(sanitize(x)) == sanitize(x)` for every string — but on the claimed
example the result is `"my_kb__2024"` with a double underscore (the `!`
becomes one underscore and the space after it another), not `"my_kb_2024"`. -/
theorem C4_sanitize_idempotent :
    (∀ x : String, sanitize_name (sanitize_name x) = sanitize_name x) ∧
    sanitize_name "My KB! 2024" = "my_kb__2024" := by
  constructor
  · intro x
    rw [sanitize_name_eq_map, sanitize_name_eq_map]
    exact congrArg String.mk (sanitize_list_idem x.data)
  · decide

/-- C4 counterexample: the claimed example value is wrong — sanitizing
`"My KB! 2024"` yields `"my_kb__2024"`, not `"my_kb_2024"`. -/
theorem C4_counterexample :
    sanitize_name "My KB! 2024" = "my_kb__2024" ∧
    sanitize_name "My KB! 2024" ≠ "my_kb_2024" := by
  constructor
  · decide
  · decide

/-- C7: formatting a citation is total — every dict access in
`_format_citation` and its per-format helpers is guarded or defaulted, which
the embedding witnesses by being a plain function to `String` — and for every
citation record and every section list (sections of any type, any combination
of missing title/author/version/level/line fields) the output contains the
document title (the resolved title, `"Unknown"` when the field is absent). -/
theorem C7_format_contains_title (c : Citation) (sections : List Sec) :
    pyIn (c.title.getD "Unknown") (format_citation c sections) = true := by
  unfold format_citation
  by_cases hs : sections = []
  · rw [if_pos hs]
    cases ht : c.title with
    | some t =>
        simp only [Option.getD_some]
        rw [String.append_assoc, String.append_assoc]
        exact pyIn_self_append _ _
    | none =>
        simp only [Option.getD_none]
        have h2 : ("Unknown Document" : String) = "Unknown" ++ " Document" := rfl
        rw [h2, String.append_assoc, String.append_assoc, String.append_assoc]
        exact pyIn_self_append _ _
  · rw [if_neg hs]
    split_ifs
    · exact pyIn_pyCommaJoin_head _ _
    · exact pyIn_pyCommaJoin_head _ _
    · exact pyIn_pyCommaJoin_head _ _
    · exact pyIn_pyCommaJoin_head _ _

theorem mdLoop_no_headers (hash : String → String) (stem : String) :
    ∀ (rem : List String) (i : Nat) (cur : CurSec) (acc : List Sec),
    (∀ l ∈ rem, headerMatch l = none) →
    mdLoop hash stem rem i cur acc =
      if cur.lines ++ rem = [] then acc
      else acc ++ [{ type := "header", name := cur.name, level := some cur.level,
                     start_line := some cur.start_line, end_line := some (i + rem.length),
                     lines := some (cur.lines ++ rem),
                     content_hash := some (hash (pyJoin (cur.lines ++ rem))),
                     citation_key := cur.citation_key }] := by
  intro rem
  induction rem with
  | nil =>
      intro i cur acc _
      simp only [mdLoop, List.append_nil, List.length_nil, Nat.add_zero]
      rfl
  | cons l rest ih =>
      intro i cur acc h
      have hl : headerMatch l = none := h l (List.mem_cons_self l rest)
      have hrest : ∀ x ∈ rest, headerMatch x = none :=
        fun x hx => h x (List.mem_cons_of_mem l hx)
      simp only [mdLoop, hl]
      rw [ih (i + 1) { cur with lines := cur.lines ++ [l] } acc hrest]
      have hne : (cur.lines ++ [l]) ++ rest ≠ [] := by simp
      have hne2 : cur.lines ++ (l :: rest) ≠ [] := by simp
      rw [if_neg hne, if_neg hne2]
      have hl2 : (cur.lines ++ [l]) ++ rest = cur.lines ++ (l :: rest) := by simp
      have hlen : (i + 1) + rest.length = i + (l :: rest).length := by
        simp [List.length_cons]
        omega
      rw [hl2, hlen]

/-- C2 (amended): a markdown file with no heading lines but non-empty content
produces exactly one section covering the whole file, but it is the synthetic
level-0 section of type `"header"` (with no citation key), not a file-level
section of type `"file"`; the `"file"` fallback fires only for empty files. -/
theorem C2_no_heading_single_section (hash : String → String) (stem : String)
    (md_lines : List String) (hne : md_lines ≠ [])
    (hnh : ∀ l ∈ md_lines, headerMatch l = none) :
    process_markdown_sections hash stem md_lines =
      [{ type := "header", name := stem, level := some 0, start_line := some 1,
         end_line := some md_lines.length, lines := some md_lines,
         content_hash := some (hash (pyJoin md_lines)), citation_key := none }] := by
  unfold process_markdown_sections
  rw [mdLoop_no_headers hash stem md_lines 0
    { level := 0, name := stem, start_line := 1, lines := [], citation_key := none } [] hnh]
  simp only [List.nil_append, List.length_nil]
  rw [if_neg hne]
  simp only [List.nil_append, Nat.zero_add]
  rw [if_neg (by simp)]

/-- C2 counterexample: on the one-line heading-free file `["hello\n"]` the
extractor returns a single section of type `"header"` (the synthetic level-0
section), and no section of type `"file"` exists, contradicting the claim. -/
theorem C2_counterexample :
    process_markdown_sections id "doc" ["hello\n"] =
      [{ type := "header", name := "doc", level := some 0, start_line := some 1,
         end_line := some 1, lines := some ["hello\n"],
         content_hash := some "hello\n", citation_key := none }] ∧
    ¬ ∃ s ∈ process_markdown_sections id "doc" ["hello\n"], s.type = "file" := by
  constructor
  · decide
  · decide

/-- C2 witness: the amended theorem applied to the concrete heading-free file
`["hello\n"]`, with both hypotheses discharged by evaluation. -/
theorem C2_no_heading_single_section_witness :
    (["hello\n"] ≠ ([] : List String)) ∧
    (∀ l ∈ ["hello\n"], headerMatch l = none) ∧
    process_markdown_sections id "doc" ["hello\n"] =
      [{ type := "header", name := "doc", level := some 0, start_line := some 1,
         end_line := some 1, lines := some ["hello\n"],
         content_hash := some (id (pyJoin ["hello\n"])), citation_key := none }] :=
  ⟨by decide, by decide,
   C2_no_heading_single_section id "doc" ["hello\n"] (by decide) (by decide)⟩

/-- The raw text a section carries: its joined `lines`, empty when the
section has no `lines` key. -/
def secText (s : Sec) : String := pyJoin (s.lines.getD [])

theorem mk_data (s : String) : String.mk s.data = s := rfl

theorem mk_append (a b : List Char) : String.mk a ++ String.mk b = String.mk (a ++ b) := rfl

theorem pyJoin_nil : pyJoin [] = "" := rfl

theorem pyJoin_cons (x : String) (l : List String) : pyJoin (x :: l) = x ++ pyJoin l := by
  unfold pyJoin
  rw [List.map_cons, List.flatten_cons]
  rw [← mk_append]

theorem pyJoin_append (a b : List String) : pyJoin (a ++ b) = pyJoin a ++ pyJoin b := by
  induction a with
  | nil => simp [pyJoin_nil, pyJoin]
  | cons x t ih =>
      rw [List.cons_append, pyJoin_cons, pyJoin_cons, ih, String.append_assoc]

theorem pyJoin_singleton (x : String) : pyJoin [x] = x := by
  rw [pyJoin_cons, pyJoin_nil, String.append_empty]

theorem breakLines_flatten (cs : List Char) : (breakLines cs).flatten = cs := by
  induction cs with
  | nil => rfl
  | cons c rest ih =>
      unfold breakLines
      by_cases hc : c = '\n'
      · rw [if_pos hc, List.flatten_cons, hc]
        rw [ih]
        rfl
      · rw [if_neg hc]
        cases hbr : breakLines rest with
        | nil =>
            rw [hbr] at ih
            simp only [List.flatten_nil] at ih
            simp [← ih]
        | cons l ls =>
            rw [hbr] at ih
            rw [List.flatten_cons] at ih ⊢
            rw [List.cons_append, ih]

theorem readlines_pyJoin (s : String) : pyJoin (readlines s) = s := by
  unfold pyJoin readlines
  rw [List.map_map]
  have h : (String.data ∘ String.mk) = id := rfl
  rw [h, List.map_id, breakLines_flatten, mk_data]

theorem mdLoop_text (hash : String → String) (stem : String) :
    ∀ (rem : List String) (i : Nat) (cur : CurSec) (acc : List Sec),
    pyJoin ((mdLoop hash stem rem i cur acc).map secText) =
      pyJoin (acc.map secText) ++ pyJoin cur.lines ++ pyJoin rem := by
  intro rem
  induction rem with
  | nil =>
      intro i cur acc
      simp only [mdLoop, pyJoin_nil, String.append_empty]
      by_cases h : cur.lines = []
      · rw [if_pos h, h, pyJoin_nil, String.append_empty]
      · rw [if_neg h, List.map_append, pyJoin_append]
        simp [secText, saveCur, pyJoin_singleton]
  | cons line rest ih =>
      intro i cur acc
      simp only [mdLoop]
      cases hm : headerMatch line with
      | some lv =>
          simp only []
          rw [ih]
          by_cases h : cur.lines = []
          · rw [if_pos h, h]
            simp [pyJoin_cons, pyJoin_nil, String.empty_append, String.append_empty,
              String.append_assoc]
          · rw [if_neg h, List.map_append, pyJoin_append]
            simp only [List.map_cons, List.map_nil, secText, saveCur, Option.getD_some]
            simp [pyJoin_cons, pyJoin_nil, String.empty_append, String.append_empty,
              String.append_assoc]
      | none =>
          rw [ih]
          simp only []
          rw [pyJoin_append, pyJoin_singleton, pyJoin_cons]
          simp [String.append_assoc]

/-- C6: for every markdown file, concatenating the raw line spans of all
extracted sections in output order reconstructs the original file contents
exactly (the synthetic pre-heading section absorbs any leading content, and
for an empty file the lone `"file"` fallback section carries no lines, so the
concatenation is the empty content). -/
theorem C6_markdown_roundtrip (hash : String → String) (stem : String) (content : String) :
    pyJoin ((process_markdown_sections hash stem (readlines content)).map secText) =
      content := by
  unfold process_markdown_sections
  have hbase := mdLoop_text hash stem (readlines content) 0
    { level := 0, name := stem, start_line := 1, lines := [], citation_key := none } []
  simp only [List.map_nil, pyJoin_nil, String.empty_append] at hbase
  rw [readlines_pyJoin content] at hbase
  by_cases h : mdLoop hash stem (readlines content) 0
      { level := 0, name := stem, start_line := 1, lines := [], citation_key := none } [] = []
  · rw [if_pos h]
    rw [h] at hbase
    simp only [List.map_nil, pyJoin_nil] at hbase
    simp only [List.map_cons, List.map_nil, secText, Option.getD_none, pyJoin_nil]
    rw [pyJoin_singleton]
    exact hbase
  · rw [if_neg h]
    exact hbase

theorem mem_declScan (mk : Nat → String → Sec) (g : String → Option String) :
    ∀ (rem : List String) (i : Nat) (s : Sec), s ∈ declScan mk g rem i →
    ∃ j nm, i ≤ j ∧ j < i + rem.length ∧ s = mk j nm := by
  intro rem
  induction rem with
  | nil =>
      intro i s h
      simp [declScan] at h
  | cons line rest ih =>
      intro i s h
      simp only [declScan] at h
      cases hg : g line with
      | some nm =>
          rw [hg] at h
          rcases List.mem_cons.mp h with h1 | h2
          · exact ⟨i, nm, Nat.le_refl i, by simp only [List.length_cons]; omega, h1⟩
          · obtain ⟨j, nm', hj1, hj2, hj3⟩ := ih (i + 1) s h2
            refine ⟨j, nm', by omega, ?_, hj3⟩
            simp only [List.length_cons]
            omega
      | none =>
          rw [hg] at h
          obtain ⟨j, nm', hj1, hj2, hj3⟩ := ih (i + 1) s h
          refine ⟨j, nm', by omega, ?_, hj3⟩
          simp only [List.length_cons]
          omega

theorem findIdxFrom_lt_length (p : String → Bool) :
    ∀ (l : List String) (k : Nat), findIdxFrom p l = some k → k < l.length := by
  intro l
  induction l with
  | nil =>
      intro k h
      simp [findIdxFrom] at h
  | cons x xs ih =>
      intro k h
      simp only [findIdxFrom] at h
      by_cases hp : p x = true
      · rw [if_pos hp] at h
        cases h
        simp
      · rw [if_neg hp] at h
        cases ho : findIdxFrom p xs with
        | none => rw [ho] at h; simp at h
        | some k' =>
            rw [ho] at h
            simp at h
            have := ih k' ho
            simp only [List.length_cons]
            omega

theorem findEndFrom_le_length (p : String → Bool) (lines : List String) (i : Nat) :
    findEndFrom p lines i ≤ lines.length := by
  cases h : findIdxFrom p (lines.drop (i + 1)) with
  | none =>
      unfold findEndFrom
      rw [h]
  | some k =>
      have hk := findIdxFrom_lt_length p _ k h
      rw [List.length_drop] at hk
      unfold findEndFrom
      rw [h]
      show i + 1 + k ≤ lines.length
      omega

theorem le_findEndFrom (p : String → Bool) (lines : List String) (i : Nat)
    (h : i < lines.length) : i + 1 ≤ findEndFrom p lines i := by
  cases hf : findIdxFrom p (lines.drop (i + 1)) with
  | none =>
      unfold findEndFrom
      rw [hf]
      show i + 1 ≤ lines.length
      omega
  | some k =>
      unfold findEndFrom
      rw [hf]
      show i + 1 ≤ i + 1 + k
      omega

theorem mem_process_code_sections (hash : String → String) (stem : String)
    (code_lines : List String) (s : Sec)
    (hs : s ∈ process_code_sections hash stem code_lines) :
    (∃ j nm, j < code_lines.length ∧ s = mkClassSec hash stem code_lines j nm) ∨
    (∃ j nm, j < code_lines.length ∧ s = mkFunctionSec hash stem code_lines j nm) ∨
    s = { type := "file", name := stem, start_line := some 1,
          end_line := some code_lines.length,
          content_hash := some (hash (pyJoin code_lines)),
          citation_key := some stem } := by
  simp only [process_code_sections] at hs
  split at hs
  · right; right
    simpa using hs
  · rcases List.mem_append.mp hs with h1 | h2
    · obtain ⟨j, nm, _, hj2, hj3⟩ := mem_declScan _ _ code_lines 0 s h1
      exact Or.inl ⟨j, nm, by omega, hj3⟩
    · obtain ⟨j, nm, _, hj2, hj3⟩ := mem_declScan _ _ code_lines 0 s h2
      exact Or.inr (Or.inl ⟨j, nm, by omega, hj3⟩)

theorem mdLoop_sections (hash : String → String) (stem : String)
    (P : Sec → Prop) (Q : CurSec → Nat → Prop)
    (hHdr : ∀ cur e, Q cur e → cur.lines ≠ [] →
        P (saveCur hash cur e (some (mdCiteKey stem cur.level cur.name))))
    (hFin : ∀ cur e, Q cur e → cur.lines ≠ [] → P (saveCur hash cur e cur.citation_key))
    (hApp : ∀ cur i line, Q cur i → Q { cur with lines := cur.lines ++ [line] } (i + 1))
    (hNew : ∀ (i lv : Nat) (nm line : String),
        Q { level := lv, name := nm, start_line := i + 1, lines := [line],
            citation_key := some (mdCiteKey stem lv nm) } (i + 1)) :
    ∀ (rem : List String) (i : Nat) (cur : CurSec) (acc : List Sec),
      (∀ s ∈ acc, P s) → Q cur i →
      ∀ s ∈ mdLoop hash stem rem i cur acc, P s := by
  intro rem
  induction rem with
  | nil =>
      intro i cur acc hacc hQ s hs
      simp only [mdLoop] at hs
      by_cases h : cur.lines = []
      · rw [if_pos h] at hs
        exact hacc s hs
      · rw [if_neg h] at hs
        rcases List.mem_append.mp hs with h1 | h2
        · exact hacc s h1
        · rw [List.mem_singleton] at h2
          rw [h2]
          exact hFin cur i hQ h
  | cons line rest ih =>
      intro i cur acc hacc hQ s hs
      simp only [mdLoop] at hs
      cases hm : headerMatch line with
      | some lv =>
          rw [hm] at hs
          simp only [] at hs
          refine ih (i + 1) _ _ ?_ (hNew i lv.1 (pyStrip lv.2) line) s hs
          intro s' hs'
          by_cases h : cur.lines = []
          · rw [if_pos h] at hs'
            exact hacc s' hs'
          · rw [if_neg h] at hs'
            rcases List.mem_append.mp hs' with h1 | h2
            · exact hacc s' h1
            · rw [List.mem_singleton] at h2
              rw [h2]
              exact hHdr cur i hQ h
      | none =>
          rw [hm] at hs
          exact ih (i + 1) _ acc hacc (hApp cur i line hQ) s hs

/-- C3 (amended): every code section carries both a `content_hash` and a
`citation_key`; every markdown section carries a `content_hash`, and carries a
`citation_key` except for the synthetic level-0 section saved at end of file
(heading-free documents), which has none; pdf page/document sections carry a
`citation_key` but never a `content_hash`; generic sections carry a
`citation_key`, with a `content_hash` exactly when the file was readable. -/
theorem C3_section_fields :
    (∀ (hash : String → String) (stem : String) (code_lines : List String) (s : Sec),
        s ∈ process_code_sections hash stem code_lines →
        s.content_hash.isSome = true ∧ s.citation_key.isSome = true) ∧
    (∀ (hash : String → String) (stem : String) (md_lines : List String) (s : Sec),
        s ∈ process_markdown_sections hash stem md_lines →
        s.content_hash.isSome = true ∧
          (s.citation_key.isSome = true ∨
           (s.level = some 0 ∧ s.name = stem ∧ s.start_line = some 1 ∧
            s.citation_key = none))) ∧
    (∀ (α : Type) (stem : String) (pages : Option (List α)) (s : Sec),
        s ∈ process_pdf_sections stem pages →
        s.citation_key.isSome = true ∧ s.content_hash = none) ∧
    (∀ (hash : String → String) (stem : String) (content : Option String) (s : Sec),
        s ∈ process_generic_sections hash stem content →
        s.citation_key.isSome = true ∧ (s.content_hash.isSome = content.isSome)) := by
  refine ⟨?_, ?_, ?_, ?_⟩
  · intro hash stem code_lines s hs
    rcases mem_process_code_sections hash stem code_lines s hs with
      ⟨j, nm, _, h⟩ | ⟨j, nm, _, h⟩ | h <;> rw [h] <;> exact ⟨rfl, rfl⟩
  · intro hash stem md_lines s hs
    simp only [process_markdown_sections] at hs
    split at hs
    · rw [List.mem_singleton] at hs
      rw [hs]
      exact ⟨rfl, Or.inl rfl⟩
    · refine mdLoop_sections hash stem
        (fun s => s.content_hash.isSome = true ∧
          (s.citation_key.isSome = true ∨
           (s.level = some 0 ∧ s.name = stem ∧ s.start_line = some 1 ∧
            s.citation_key = none)))
        (fun cur _ => cur.citation_key = none →
          cur.level = 0 ∧ cur.name = stem ∧ cur.start_line = 1)
        ?_ ?_ ?_ ?_ md_lines 0 _ [] (by intro s' hs'; simp at hs') ?_ s hs
      · intro cur e _ _
        exact ⟨rfl, Or.inl rfl⟩
      · intro cur e hQ _
        cases hck : cur.citation_key with
        | some ck => exact ⟨rfl, Or.inl (by simp [saveCur, hck])⟩
        | none =>
            obtain ⟨h1, h2, h3⟩ := hQ hck
            exact ⟨rfl, Or.inr (by simp [saveCur, hck, h1, h2, h3])⟩
      · intro cur i line hQ h
        exact hQ h
      · intro i lv nm line h
        simp at h
      · intro h
        exact ⟨rfl, rfl, rfl⟩
  · intro α stem pages s hs
    cases pages with
    | some ps =>
        simp only [process_pdf_sections] at hs
        obtain ⟨i, _, h⟩ := List.mem_map.mp hs
        rw [← h]
        exact ⟨rfl, rfl⟩
    | none =>
        simp only [process_pdf_sections, List.mem_singleton] at hs
        rw [hs]
        exact ⟨rfl, rfl⟩
  · intro hash stem content s hs
    cases content with
    | some c =>
        simp only [process_generic_sections, List.mem_singleton] at hs
        rw [hs]
        exact ⟨rfl, rfl⟩
    | none =>
        simp only [process_generic_sections, List.mem_singleton] at hs
        rw [hs]
        exact ⟨rfl, rfl⟩

/-- C3 counterexample: a pdf processed without page metadata (and likewise
with pages) yields sections that carry no `content_hash`, contradicting the
claim that every section of every content type carries both fields. -/
theorem C3_counterexample :
    (process_pdf_sections "mydoc" (none : Option (List Unit))).all
        (fun s => s.content_hash.isSome && s.citation_key.isSome) = false := by
  decide

/-- C3 witness: the pdf conjunct of the amended theorem applied to the
concrete document-level section produced for `"mydoc"`. -/
theorem C3_section_fields_witness :
    ({ type := "document", name := "mydoc", citation_key := some "mydoc" } : Sec) ∈
        process_pdf_sections "mydoc" (none : Option (List Unit)) ∧
    (Option.some "mydoc").isSome = true :=
  ⟨by decide,
   (C3_section_fields.2.2.1 Unit "mydoc" none
      { type := "document", name := "mydoc", citation_key := some "mydoc" }
      (by decide)).1⟩

/-- C5 (amended): every extracted class and function section of every code
file satisfies `1 ≤ start_line ≤ end_line ≤ total_lines`; and for every
extracted code or markdown section of a NON-EMPTY file, `start_line ≤
end_line` whenever both are present.  (On an empty file the whole-file
fallback section has `start_line = 1 > end_line = 0`, so the unrestricted
second conjunct of the claim fails; pdf and generic sections never carry line
fields.) -/
theorem C5_line_bounds :
    (∀ (hash : String → String) (stem : String) (code_lines : List String) (s : Sec),
        s ∈ process_code_sections hash stem code_lines →
        s.type = "class" ∨ s.type = "function" →
        ∃ a b, s.start_line = some a ∧ s.end_line = some b ∧
          1 ≤ a ∧ a ≤ b ∧ b ≤ code_lines.length) ∧
    (∀ (hash : String → String) (stem : String) (code_lines : List String) (s : Sec)
        (a b : Nat), code_lines ≠ [] → s ∈ process_code_sections hash stem code_lines →
        s.start_line = some a → s.end_line = some b → a ≤ b) ∧
    (∀ (hash : String → String) (stem : String) (md_lines : List String) (s : Sec)
        (a b : Nat), md_lines ≠ [] → s ∈ process_markdown_sections hash stem md_lines →
        s.start_line = some a → s.end_line = some b → a ≤ b) := by
  refine ⟨?_, ?_, ?_⟩
  · intro hash stem code_lines s hs hty
    rcases mem_process_code_sections hash stem code_lines s hs with
      ⟨j, nm, hj, h⟩ | ⟨j, nm, hj, h⟩ | h
    · rw [h]
      simp only [mkClassSec]
      refine ⟨j + 1, _, rfl, rfl, by omega, le_findEndFrom _ _ _ hj,
        findEndFrom_le_length _ _ _⟩
    · rw [h]
      simp only [mkFunctionSec]
      refine ⟨j + 1, _, rfl, rfl, by omega, le_findEndFrom _ _ _ hj,
        findEndFrom_le_length _ _ _⟩
    · rw [h] at hty
      simp at hty
  · intro hash stem code_lines s a b hne hs ha hb
    rcases mem_process_code_sections hash stem code_lines s hs with
      ⟨j, nm, hj, h⟩ | ⟨j, nm, hj, h⟩ | h
    · rw [h] at ha hb
      simp only [mkClassSec, Option.some.injEq] at ha hb
      have h1 := le_findEndFrom (declStart "class") code_lines j hj
      omega
    · rw [h] at ha hb
      simp only [mkFunctionSec, Option.some.injEq] at ha hb
      have h1 := le_findEndFrom
        (fun l => declStart "def" l || declStart "class" l) code_lines j hj
      omega
    · rw [h] at ha hb
      simp only [Option.some.injEq] at ha hb
      have h1 : 0 < code_lines.length := List.length_pos.mpr hne
      omega
  · intro hash stem md_lines s a b hne hs ha hb
    simp only [process_markdown_sections] at hs
    split at hs
    · rw [List.mem_singleton] at hs
      rw [hs] at ha hb
      simp only [Option.some.injEq] at ha hb
      have h1 : 0 < md_lines.length := List.length_pos.mpr hne
      omega
    · refine mdLoop_sections hash stem
        (fun s => ∀ a b, s.start_line = some a → s.end_line = some b → a ≤ b)
        (fun cur i => (cur.lines ≠ [] → cur.start_line ≤ i) ∧
          (cur.lines = [] → cur.start_line ≤ i + 1))
        ?_ ?_ ?_ ?_ md_lines 0 _ [] (by intro s' hs'; simp at hs') ?_ s hs a b ha hb
      · intro cur e hQ hl a' b' ha' hb'
        simp only [saveCur, Option.some.injEq] at ha' hb'
        have := hQ.1 hl
        omega
      · intro cur e hQ hl a' b' ha' hb'
        simp only [saveCur, Option.some.injEq] at ha' hb'
        have := hQ.1 hl
        omega
      · intro cur i line hQ
        constructor
        · intro _
          by_cases h0 : cur.lines = []
          · have := hQ.2 h0
            simpa using this
          · have := hQ.1 h0
            simp only []
            omega
        · intro h0
          simp at h0
      · intro i lv nm line
        constructor
        · intro _
          exact Nat.le_refl _
        · intro h0
          simp at h0
      · constructor
        · intro h0
          exact absurd rfl h0
        · intro _
          show (1 : Nat) ≤ 0 + 1
          omega

/-- C5 counterexample: an empty code file produces the whole-file fallback
section with `start_line = 1` and `end_line = 0`, violating
`start_line ≤ end_line` (the claim's unrestricted second conjunct). -/
theorem C5_counterexample :
    ∃ s ∈ process_code_sections id "empty" ([] : List String),
      s.start_line = some 1 ∧ s.end_line = some 0 := by
  decide

/-- C5 witness: the first conjunct of the amended theorem applied to the
concrete class section extracted from a two-line file. -/
theorem C5_line_bounds_witness :
    ({ type := "class", name := "A", start_line := some 1, end_line := some 2,
       content_hash := some "class A:\n    pass\n",
       citation_key := some "m:class:A" } : Sec) ∈
      process_code_sections id "m" ["class A:\n", "    pass\n"] ∧
    ∃ a b,
      ({ type := "class", name := "A", start_line := some 1, end_line := some 2,
         content_hash := some "class A:\n    pass\n",
         citation_key := some "m:class:A" } : Sec).start_line = some a ∧
      ({ type := "class", name := "A", start_line := some 1, end_line := some 2,
         content_hash := some "class A:\n    pass\n",
         citation_key := some "m:class:A" } : Sec).end_line = some b ∧
      1 ≤ a ∧ a ≤ b ∧ b ≤ (["class A:\n", "    pass\n"] : List String).length :=
  ⟨by decide,
   C5_line_bounds.1 id "m" ["class A:\n", "    pass\n"] _ (by decide) (by decide)⟩

theorem findMatching_eq_projectAll (chunk : String) :
    ∀ l : List Sec, findMatching chunk l = projectAll (l.filter (section_matches chunk)) := by
  intro l
  induction l with
  | nil => rfl
  | cons s rest ih =>
      simp only [findMatching, List.filter_cons]
      by_cases h : section_matches chunk s = true
      · simp only [h, if_true, projectAll]
        rw [ih]
      · simp only [h, if_false, Bool.false_eq_true]
        exact ih

theorem section_matches_iff (chunk : String) (s : Sec) :
    section_matches chunk s = true ↔
      (s.content_hash.isSome = true ∧
       ∃ ls, s.lines = some ls ∧ pyIn chunk (pyJoin ls) = true) := by
  unfold section_matches is_content_subset
  cases hl : s.lines with
  | none => simp
  | some ls => simp

theorem code_sections_lines_none (hash : String → String) (stem : String)
    (code_lines : List String) (s : Sec)
    (hs : s ∈ process_code_sections hash stem code_lines) : s.lines = none := by
  rcases mem_process_code_sections hash stem code_lines s hs with
    ⟨j, nm, _, h⟩ | ⟨j, nm, _, h⟩ | h <;> rw [h] <;> rfl

/-- C1 (amended): a section is declared a match for a chunk exactly when it
carries a `content_hash` AND still carries a raw `lines` field whose join
contains the chunk as a substring.  Only markdown header sections persist a
`lines` field; code class/function sections persist none, so they never match
even when the chunk is a substring of their reconstructed raw text.  When no
section matches and the section list is nonempty, the result is the generic
document fallback built from the first section. -/
theorem C1_matching_criterion :
    (∀ (chunk : String) (sections : List Sec),
        findMatching chunk sections =
          projectAll (sections.filter (section_matches chunk))) ∧
    (∀ (chunk : String) (s : Sec),
        section_matches chunk s = true ↔
          (s.content_hash.isSome = true ∧
           ∃ ls, s.lines = some ls ∧ pyIn chunk (pyJoin ls) = true)) ∧
    (∀ (hash : String → String) (stem : String) (code_lines : List String)
        (chunk : String) (s : Sec), s ∈ process_code_sections hash stem code_lines →
        is_content_subset chunk s = false) ∧
    (∀ (chunk : String) (s0 : Sec) (rest : List Sec),
        (∀ s ∈ s0 :: rest, section_matches chunk s = false) →
        find_chunk_sections chunk (s0 :: rest) = some [docFallback s0]) := by
  refine ⟨findMatching_eq_projectAll, section_matches_iff, ?_, ?_⟩
  · intro hash stem code_lines chunk s hs
    unfold is_content_subset
    rw [code_sections_lines_none hash stem code_lines s hs]
  · intro chunk s0 rest h
    have hflt : (s0 :: rest).filter (section_matches chunk) = [] := by
      rw [List.filter_eq_nil_iff]
      intro a ha
      simp [h a ha]
    unfold find_chunk_sections
    rw [findMatching_eq_projectAll, hflt]
    rfl

/-- C1 counterexample: for the two-line file `class A:\n    pass\n`, the chunk
`"class A:"` is a substring of the class section's reconstructed raw text
(lines 1-2), yet `_find_chunk_sections` does not match the class section and
returns the document fallback instead. -/
theorem C1_counterexample :
    pyIn "class A:" (slice ["class A:\n", "    pass\n"] 0 2) = true ∧
    (∃ s ∈ process_code_sections id "m" ["class A:\n", "    pass\n"],
        s.type = "class" ∧ s.start_line = some 1 ∧ s.end_line = some 2) ∧
    find_chunk_sections "class A:"
        (process_code_sections id "m" ["class A:\n", "    pass\n"]) =
      some [{ type := "document", name := "A", citation_key := some "m:class:A" }] := by
  refine ⟨by decide, by decide, by decide⟩

/-- C1 witness: the fallback conjunct of the amended theorem applied to a
concrete one-section list in which nothing matches. -/
theorem C1_matching_criterion_witness :
    (∀ s ∈ [({ type := "document", name := "x" } : Sec)],
        section_matches "c" s = false) ∧
    find_chunk_sections "c" [{ type := "document", name := "x" }] =
      some [docFallback { type := "document", name := "x" }] :=
  ⟨by decide,
   C1_matching_criterion.2.2.2 "c" { type := "document", name := "x" } [] (by decide)⟩

theorem md_sections_header_type (hash : String → String) (stem : String)
    (md_lines : List String) (s : Sec)
    (hs : s ∈ process_markdown_sections hash stem md_lines)
    (hl : s.lines.isSome = true) : s.type = "header" := by
  simp only [process_markdown_sections] at hs
  split at hs
  · rw [List.mem_singleton] at hs
    rw [hs] at hl
    simp at hl
  · refine mdLoop_sections hash stem (fun s => s.lines.isSome = true → s.type = "header")
      (fun _ _ => True) ?_ ?_ ?_ ?_ md_lines 0 _ [] ?_ trivial s hs hl
    · intro cur e _ _ _
      rfl
    · intro cur e _ _ _
      rfl
    · intro cur i line _
      trivial
    · intro i lv nm line
      trivial
    · intro s' hs'
      simp at hs'

theorem projectAll_cons (s : Sec) (rest : List Sec) (out : List Sec)
    (h : projectAll (s :: rest) = some out) :
    ∃ m tl, projectSec s = some m ∧ projectAll rest = some tl ∧ out = m :: tl := by
  simp only [projectAll] at h
  cases hp : projectSec s with
  | none =>
      rw [hp] at h
      cases hq : projectAll rest <;> rw [hq] at h <;> cases h
  | some m =>
      rw [hp] at h
      cases hq : projectAll rest with
      | none => rw [hq] at h; cases h
      | some tl =>
          rw [hq] at h
          exact ⟨m, tl, rfl, rfl, (Option.some.inj h).symm⟩

theorem projectSec_type_level (s m : Sec) (h : projectSec s = some m) :
    m.type = s.type ∧ m.level = none := by
  unfold projectSec at h
  cases hck : s.citation_key with
  | none => rw [hck] at h; cases h
  | some ck =>
      rw [hck] at h
      rw [← Option.some.inj h]
      exact ⟨rfl, rfl⟩

/-- C8 (amended): when a chunk of a markdown document matches a heading
section (in particular a level-2 one), the chunk citation's first section has
`type == "header"`, but its `level` field is ABSENT: `_find_chunk_sections`
copies only type, name, citation key and line numbers into the chunk-level
section record, dropping `level`, so `sections[0].level == 2` never holds. -/
theorem C8_chunk_section_level_dropped (hash : String → String)
    (stem doc_id chunk : String) (md_lines : List String) (store : CitationStore)
    (citation : Citation) (cc : ChunkCitation)
    (hstore : store doc_id = some citation)
    (hsecs : citation.sections = process_markdown_sections hash stem md_lines)
    (hgen : generate_chunk_citations store [chunk] doc_id = some [cc])
    (hmatch : ∃ s ∈ citation.sections, section_matches chunk s = true) :
    ∃ h rest, cc.sections = h :: rest ∧ h.type = "header" ∧ h.level = none := by
  unfold generate_chunk_citations at hgen
  rw [hstore] at hgen
  simp only [chunkLoop] at hgen
  cases hmk : mkChunkCitation citation doc_id 0 chunk with
  | none => rw [hmk] at hgen; cases hgen
  | some cc' =>
      rw [hmk] at hgen
      have hcc : cc' = cc := by
        have := Option.some.inj hgen
        exact (List.cons.inj this).1
      unfold mkChunkCitation at hmk
      cases hf : find_chunk_sections chunk citation.sections with
      | none => rw [hf] at hmk; cases hmk
      | some out =>
          rw [hf] at hmk
          have hccs : cc.sections = out := by
            rw [← hcc, ← Option.some.inj hmk]
          obtain ⟨sM, hsM, hsMm⟩ := hmatch
          have hmemf : sM ∈ citation.sections.filter (section_matches chunk) :=
            List.mem_filter.mpr ⟨hsM, hsMm⟩
          unfold find_chunk_sections at hf
          rw [findMatching_eq_projectAll] at hf
          cases hflt : citation.sections.filter (section_matches chunk) with
          | nil => rw [hflt] at hmemf; cases hmemf
          | cons f0 frest =>
              rw [hflt] at hf
              cases hpa : projectAll (f0 :: frest) with
              | none => rw [hpa] at hf; cases hf
              | some matching =>
                  simp only [hpa] at hf
                  obtain ⟨m, tl, hm, htl, hmt⟩ := projectAll_cons f0 frest matching hpa
                  have hmne : matching ≠ [] := by
                    rw [hmt]
                    simp
                  rw [if_neg hmne] at hf
                  have hout : out = matching := (Option.some.inj hf).symm
                  have hf0 : f0 ∈ citation.sections ∧ section_matches chunk f0 = true := by
                    have : f0 ∈ citation.sections.filter (section_matches chunk) := by
                      rw [hflt]
                      exact List.mem_cons_self f0 frest
                    exact ⟨(List.mem_filter.mp this).1, (List.mem_filter.mp this).2⟩
                  have hlines : f0.lines.isSome = true := by
                    obtain ⟨_, ls, hls, _⟩ := (section_matches_iff chunk f0).mp hf0.2
                    rw [hls]
                    rfl
                  have htype : f0.type = "header" := by
                    apply md_sections_header_type hash stem md_lines f0 _ hlines
                    rw [← hsecs]
                    exact hf0.1
                  obtain ⟨hmty, hmlv⟩ := projectSec_type_level f0 m hm
                  refine ⟨m, tl, ?_, ?_, hmlv⟩
                  · rw [hccs, hout, hmt]
                  · rw [hmty, htype]

/-- The markdown document used to exhibit the dropped `level` field: its
second section is a level-2 heading section. -/
def exampleMdCitation : Citation :=
  { doc_id := "d1", title := some "Doc", author := some "Ann", version := some "2.0",
    citation_format := some "markdown", repository := "/data/knowledge_base",
    sections := process_markdown_sections id "doc"
      ["# Title\n", "intro\n", "## Sub\n", "body text\n"] }

/-- A citation store holding exactly the example document. -/
def exampleStore : CitationStore :=
  fun d => if d = "d1" then some exampleMdCitation else none

/-- C8 counterexample: the chunk `"body text"` is an exact substring of the
level-2 heading section's raw text, yet the generated chunk citation's
`sections[0]` carries `type = "header"` with NO `level` field (`none`), so
`level == 2` fails. -/
theorem C8_counterexample :
    (∃ s ∈ exampleMdCitation.sections, s.level = some 2 ∧ s.type = "header" ∧
        pyIn "body text" (pyJoin (s.lines.getD [])) = true) ∧
    ((generate_chunk_citations exampleStore ["body text"] "d1").getD []).map
        (fun cc => cc.sections.map fun s => (s.type, s.level)) =
      [[("header", (none : Option Nat))]] ∧
    (∀ cc ∈ (generate_chunk_citations exampleStore ["body text"] "d1").getD [],
        ∀ s ∈ cc.sections, ¬s.level = some 2) := by
  refine ⟨by decide, by decide, by decide⟩

/-- C8 witness: the amended theorem applied to the example store, document and
chunk, with every hypothesis discharged by evaluation. -/
theorem C8_chunk_section_level_dropped_witness :
    ∃ h rest,
      ({ chunk_id := "d1_chunk_0", doc_id := "d1", title := "Doc", author := "Ann",
         version := "2.0",
         sections := [{ type := "header", name := "Sub", start_line := some 3,
                        end_line := some 4, citation_key := some "doc:2:Sub" }],
         citation_text := "Doc, # Sub, by Ann, Version 2.0",
         repository_link := "/data/knowledge_base/processed/d1.md" } :
        ChunkCitation).sections = h :: rest ∧
      h.type = "header" ∧ h.level = none :=
  C8_chunk_section_level_dropped id "doc" "d1" "body text"
    ["# Title\n", "intro\n", "## Sub\n", "body text\n"] exampleStore exampleMdCitation
    _ (by decide) rfl (by decide) (by decide)

end Knowledge
